import Mathlib

/-!
Verification development for the `executable-visualizer` repository,
centred on `executable-visualizer-lib/src/sections.rs`.

Modelling conventions:
* Rust `&[u8]` buffers and `String` values are modelled as `List Nat`
  (the byte values; Rust strings are UTF-8 byte sequences, and every
  literal appearing in the source is ASCII).
* Machine integers (`u16`, `u32`, `u64`) are modelled as `Nat`.  The
  source performs unchecked `u64` additions and multiplications whose
  overflow behaviour (wrap in release, abort in debug) is irrelevant to
  every input considered here, so arithmetic is exact.
* A Rust panic (a failed `unwrap`/`expect`, an out-of-bounds slice or
  index) is modelled as the distinguished result `LoadErr.panicked msg`;
  the single `return Err(anyhow!(..))` in `load_from_bytes` is modelled
  as `LoadErr.badMagic`.  Fallible helpers return `Option`, with `none`
  standing for the panic of the `unwrap` applied to them.
* The third-party `goblin` crate functions used by the source
  (`elf64::header::Header::parse`, `elf64::section_header::
  SectionHeader::from_bytes`, the `SHF_FLAGS` table, `shf_to_str`,
  `sht_to_str`) are embedded from the documented ELF64 little-endian
  layout they implement: `Header::parse` reads the fixed 64-byte header
  (failing, hence panicking at the caller's `unwrap`, when fewer than 64
  bytes are available) with field endianness chosen by `e_ident[5]`;
  `SectionHeader::from_bytes` copies `shnum` consecutive 64-byte records
  (via the `plain` crate, native little-endian on the supported
  targets), aborting when the slice is too short.
-/

set_option maxRecDepth 100000

namespace ElfViz

/-- Little-endian base-256 encoding of `n` in `width` bytes (helper used
both to read test buffers and to build them). -/
def le (width n : Nat) : List Nat :=
  (List.range width).map (fun i => n / 256 ^ i % 256)

/-- Read `width` bytes little-endian starting at `off`; `none` when the
read would run past the end of the buffer. -/
def readLE (data : List Nat) (off : Nat) : Nat → Option Nat
  | 0 => some 0
  | w + 1 =>
    match data[off]?, readLE data (off + 1) w with
    | some b, some hi => some (b + 256 * hi)
    | _, _ => none

/-- Read `width` bytes big-endian starting at `off`. -/
def readBE (data : List Nat) (off : Nat) : Nat → Option Nat
  | 0 => some 0
  | w + 1 =>
    match data[off]?, readBE data (off + 1) w with
    | some b, some lo => some (lo + 256 ^ w * b)
    | _, _ => none

/-- Endianness-directed read; `isLE = true` means little-endian. -/
def readNum (isLE : Bool) (data : List Nat) (off width : Nat) : Nat :=
  ((if isLE then readLE data off width else readBE data off width).getD 0)

/-- UTF-8 bytes of an ASCII Lean string literal (models a Rust `String`
as its byte sequence; every literal in the source is ASCII). -/
def str2bytes (s : String) : List Nat :=
  s.data.map Char.toNat

/-- Decimal digits of `n` as ASCII bytes (models `format!` of an
integer). -/
def natToDecBytes (n : Nat) : List Nat :=
  (Nat.toDigits 10 n).map Char.toNat

/-- Lower-case hexadecimal rendering `0x…` as ASCII bytes (models
`format!("0x{:x}", n)`). -/
def natToHexBytes (n : Nat) : List Nat :=
  str2bytes "0x" ++ (Nat.toDigits 16 n).map Char.toNat

/-! ## The goblin `elf64::header::Header` model -/

/-- `goblin::elf64::header::Header`: the fixed 64-byte ELF64 header. -/
structure Header where
  e_ident : List Nat
  e_type : Nat
  e_machine : Nat
  e_version : Nat
  e_entry : Nat
  e_phoff : Nat
  e_shoff : Nat
  e_flags : Nat
  e_ehsize : Nat
  e_phentsize : Nat
  e_phnum : Nat
  e_shentsize : Nat
  e_shnum : Nat
  e_shstrndx : Nat
deriving Repr, DecidableEq, Inhabited

/-- `Header::parse`: succeeds exactly when at least the 64 header bytes
are present (the sequential `scroll` reads of the contiguous fields at
offsets 0–63 succeed exactly then), decoding multi-byte fields with the
endianness selected by `e_ident[5]` (`1` = two's complement
little-endian). -/
def Header.parse (data : List Nat) : Option Header :=
  if data.length < 64 then none
  else
    let isLE := data.getD 5 0 == 1
    some
      { e_ident := data.take 16
        e_type := readNum isLE data 16 2
        e_machine := readNum isLE data 18 2
        e_version := readNum isLE data 20 4
        e_entry := readNum isLE data 24 8
        e_phoff := readNum isLE data 32 8
        e_shoff := readNum isLE data 40 8
        e_flags := readNum isLE data 48 4
        e_ehsize := readNum isLE data 52 2
        e_phentsize := readNum isLE data 54 2
        e_phnum := readNum isLE data 56 2
        e_shentsize := readNum isLE data 58 2
        e_shnum := readNum isLE data 60 2
        e_shstrndx := readNum isLE data 62 2 }

/-! ## The goblin `elf64::section_header::SectionHeader` model -/

/-- `goblin::elf64::section_header::SectionHeader`: one 64-byte ELF64
section-header record. -/
structure SectionHeader where
  sh_name : Nat
  sh_type : Nat
  sh_flags : Nat
  sh_addr : Nat
  sh_offset : Nat
  sh_size : Nat
  sh_link : Nat
  sh_info : Nat
  sh_addralign : Nat
  sh_entsize : Nat
deriving Repr, DecidableEq, Inhabited

/-- Decode the 64-byte record starting at `off` (the `plain` crate
copies records byte-for-byte; the supported targets are
little-endian). -/
def readShdr (bytes : List Nat) (off : Nat) : SectionHeader :=
  { sh_name := readNum true bytes off 4
    sh_type := readNum true bytes (off + 4) 4
    sh_flags := readNum true bytes (off + 8) 8
    sh_addr := readNum true bytes (off + 16) 8
    sh_offset := readNum true bytes (off + 24) 8
    sh_size := readNum true bytes (off + 32) 8
    sh_link := readNum true bytes (off + 40) 4
    sh_info := readNum true bytes (off + 44) 4
    sh_addralign := readNum true bytes (off + 48) 8
    sh_entsize := readNum true bytes (off + 56) 8 }

/-- `SectionHeader::from_bytes bytes shnum`: reads `shnum` consecutive
64-byte records; `none` models the `expect` abort ("buffer is too short
for given number of entries") when the slice cannot hold them. -/
def SectionHeader.from_bytes (bytes : List Nat) (shnum : Nat) :
    Option (List SectionHeader) :=
  if bytes.length < shnum * 64 then none
  else some ((List.range shnum).map (fun i => readShdr bytes (i * 64)))

/-! ## Section-header constants and decoders (goblin) -/

def SHT_NULL : Nat := 0
def SHT_RELA : Nat := 4
def SHT_DYNAMIC : Nat := 6
def SHT_NOBITS : Nat := 8
def SHT_REL : Nat := 9

def SHF_ALLOC : Nat := 0x2

/-- goblin's `SHF_FLAGS` table, in its iteration order. -/
def SHF_FLAGS : List Nat :=
  [0x1, 0x2, 0x4, 0x10, 0x20, 0x40, 0x80, 0x100, 0x200, 0x400]

/-- goblin's `shf_to_str` restricted to the members of `SHF_FLAGS` (the
only arguments the source ever passes). -/
def shf_to_str (f : Nat) : List Nat :=
  if f = 0x1 then str2bytes "SHF_WRITE"
  else if f = 0x2 then str2bytes "SHF_ALLOC"
  else if f = 0x4 then str2bytes "SHF_EXECINSTR"
  else if f = 0x10 then str2bytes "SHF_MERGE"
  else if f = 0x20 then str2bytes "SHF_STRINGS"
  else if f = 0x40 then str2bytes "SHF_INFO_LINK"
  else if f = 0x80 then str2bytes "SHF_LINK_ORDER"
  else if f = 0x100 then str2bytes "SHF_OS_NONCONFORMING"
  else if f = 0x200 then str2bytes "SHF_GROUP"
  else if f = 0x400 then str2bytes "SHF_TLS"
  else str2bytes "SHF_UNKNOWN"

/-- goblin's `sht_to_str` for the standard section types (the inputs
considered here use only `SHT_NULL`, `SHT_PROGBITS`, `SHT_STRTAB`). -/
def sht_to_str (t : Nat) : List Nat :=
  if t = 0 then str2bytes "SHT_NULL"
  else if t = 1 then str2bytes "SHT_PROGBITS"
  else if t = 2 then str2bytes "SHT_SYMTAB"
  else if t = 3 then str2bytes "SHT_STRTAB"
  else if t = 4 then str2bytes "SHT_RELA"
  else if t = 5 then str2bytes "SHT_HASH"
  else if t = 6 then str2bytes "SHT_DYNAMIC"
  else if t = 7 then str2bytes "SHT_NOTE"
  else if t = 8 then str2bytes "SHT_NOBITS"
  else if t = 9 then str2bytes "SHT_REL"
  else if t = 10 then str2bytes "SHT_SHLIB"
  else if t = 11 then str2bytes "SHT_DYNSYM"
  else if t = 14 then str2bytes "SHT_INIT_ARRAY"
  else if t = 15 then str2bytes "SHT_FINI_ARRAY"
  else if t = 16 then str2bytes "SHT_PREINIT_ARRAY"
  else if t = 17 then str2bytes "SHT_GROUP"
  else if t = 18 then str2bytes "SHT_SYMTAB_SHNDX"
  else if t = 19 then str2bytes "SHT_NUM"
  else str2bytes "UNKNOWN_SHT"

/-- The flag-decoding loop of `load_from_bytes`: for each set flag,
append a `|` separator when the accumulator is non-empty, then the flag
name. -/
def flagsFold (v : Nat) : List Nat :=
  SHF_FLAGS.foldl
    (fun acc f =>
      if v &&& f ≠ 0 then
        acc ++ (if acc.isEmpty then [] else str2bytes "|") ++ shf_to_str f
      else acc)
    []

/-- The final flags string: `"NONE"` when no listed flag is set. -/
def flagsString (v : Nat) : List Nat :=
  let s := flagsFold v
  if s.isEmpty then str2bytes "NONE" else s

/-! ## `parse_str_table` -/

/-- `CStr::from_bytes_until_nul`: the bytes strictly before the first
nul; `none` when the slice contains no nul byte (the `Err` case, whose
caller-side `unwrap` aborts). -/
def takeUntilNul : List Nat → Option (List Nat)
  | [] => none
  | b :: rest => if b = 0 then some [] else (takeUntilNul rest).map (b :: ·)

/-- Continuation byte test for UTF-8 validation. -/
def isCont (b : Nat) : Bool := decide (0x80 ≤ b ∧ b ≤ 0xBF)

/-- UTF-8 validity of a byte sequence (the check performed by
`CStr::to_str`; its failure panics at the caller's `unwrap`). -/
def utf8Valid : List Nat → Bool
  | [] => true
  | b :: rest =>
    if b ≤ 0x7F then utf8Valid rest
    else if 0xC2 ≤ b ∧ b ≤ 0xDF then
      match rest with
      | c1 :: r => isCont c1 && utf8Valid r
      | [] => false
    else if b = 0xE0 then
      match rest with
      | c1 :: c2 :: r =>
        decide (0xA0 ≤ c1 ∧ c1 ≤ 0xBF) && isCont c2 && utf8Valid r
      | _ => false
    else if (0xE1 ≤ b ∧ b ≤ 0xEC) ∨ b = 0xEE ∨ b = 0xEF then
      match rest with
      | c1 :: c2 :: r => isCont c1 && isCont c2 && utf8Valid r
      | _ => false
    else if b = 0xED then
      match rest with
      | c1 :: c2 :: r =>
        decide (0x80 ≤ c1 ∧ c1 ≤ 0x9F) && isCont c2 && utf8Valid r
      | _ => false
    else if b = 0xF0 then
      match rest with
      | c1 :: c2 :: c3 :: r =>
        decide (0x90 ≤ c1 ∧ c1 ≤ 0xBF) && isCont c2 && isCont c3 && utf8Valid r
      | _ => false
    else if 0xF1 ≤ b ∧ b ≤ 0xF3 then
      match rest with
      | c1 :: c2 :: c3 :: r => isCont c1 && isCont c2 && isCont c3 && utf8Valid r
      | _ => false
    else if b = 0xF4 then
      match rest with
      | c1 :: c2 :: c3 :: r =>
        decide (0x80 ≤ c1 ∧ c1 ≤ 0x8F) && isCont c2 && isCont c3 && utf8Valid r
      | _ => false
    else false

/-- The fixed placeholder returned for an out-of-range name offset. -/
def placeholderName : List Nat := str2bytes "sh_name out of bounds of string table"

/-- `parse_str_table` from `sections.rs`: placeholder when `offset`
exceeds the slice length (note: strictly greater), otherwise the bytes
of `data[offset..]` up to the first nul; `none` models the panic of the
two `unwrap`s (no nul terminator found, or invalid UTF-8). -/
def parse_str_table (data : List Nat) (offset : Nat) : Option (List Nat) :=
  if offset > data.length then some placeholderName
  else
    match takeUntilNul (data.drop offset) with
    | none => none
    | some s => if utf8Valid s then some s else none

/-! ## `FileNode`, `SectionType`, `ExecutableFile` -/

/-- `SectionType` from `sections.rs`. -/
inductive SectionType : Type where
  | ElfHeader
  | ElfSectionHeader
  | ElfProgramHeader
  | Text
  | Root
deriving Repr, DecidableEq

/-- `FileNode` from `sections.rs` (a nested inductive because a node
owns its list of children). -/
inductive FileNode : Type where
  | mk
      (name : List Nat)
      (bytes_start bytes_end ram_bytes_start ram_bytes_end
        file_bytes_start file_bytes_end : Nat)
      (ty : SectionType)
      (notes : List (List Nat × List Nat))
      (children : List FileNode) : FileNode

def FileNode.name : FileNode → List Nat
  | .mk n _ _ _ _ _ _ _ _ _ => n

def FileNode.bytes_start : FileNode → Nat
  | .mk _ s _ _ _ _ _ _ _ _ => s

def FileNode.bytes_end : FileNode → Nat
  | .mk _ _ e _ _ _ _ _ _ _ => e

def FileNode.ram_bytes_start : FileNode → Nat
  | .mk _ _ _ s _ _ _ _ _ _ => s

def FileNode.ram_bytes_end : FileNode → Nat
  | .mk _ _ _ _ e _ _ _ _ _ => e

def FileNode.file_bytes_start : FileNode → Nat
  | .mk _ _ _ _ _ s _ _ _ _ => s

def FileNode.file_bytes_end : FileNode → Nat
  | .mk _ _ _ _ _ _ e _ _ _ => e

def FileNode.ty : FileNode → SectionType
  | .mk _ _ _ _ _ _ _ t _ _ => t

def FileNode.notes : FileNode → List (List Nat × List Nat)
  | .mk _ _ _ _ _ _ _ _ ns _ => ns

def FileNode.children : FileNode → List FileNode
  | .mk _ _ _ _ _ _ _ _ _ cs => cs

instance : Inhabited FileNode :=
  ⟨.mk [] 0 0 0 0 0 0 .Root [] []⟩

/-- `FileNode::len`. -/
def FileNode.len (n : FileNode) : Nat := n.bytes_end - n.bytes_start

/-- `FileNode::overlaps` from `sections.rs`. -/
def FileNode.overlaps (a b : FileNode) : Bool :=
  (a.bytes_start > b.bytes_start && a.bytes_start < b.bytes_start + b.len) ||
  (a.bytes_end > b.bytes_start && a.bytes_end < b.bytes_start + b.len)

/-- The sibling order used by `FileNode::sort`. -/
def byStart (a b : FileNode) : Prop := a.bytes_start ≤ b.bytes_start

instance : DecidableRel byStart := fun x y => Nat.decLe x.bytes_start y.bytes_start

instance : IsTotal FileNode byStart := ⟨fun _ _ => Nat.le_total _ _⟩

instance : IsTrans FileNode byStart := ⟨fun _ _ _ => Nat.le_trans⟩

/-- `Vec::sort_by_key(|x| x.bytes_start)`: a stable ascending sort by
`bytes_start`, realised by the (stable) insertion sort. -/
def sortByStart (l : List FileNode) : List FileNode :=
  l.insertionSort byStart

mutual

/-- `FileNode::sort`: recursively sort every node's children ascending
by `bytes_start` (the source sorts a node's own children before
recursing into them; since the recursion does not change any child's
`bytes_start`, sorting after recursing produces the same tree and is
structurally admissible). -/
def FileNode.sort : FileNode → FileNode
  | .mk n s e rs re fs fe t ns cs => .mk n s e rs re fs fe t ns (sortByStart (FileNode.sortList cs))

def FileNode.sortList : List FileNode → List FileNode
  | [] => []
  | c :: cs => FileNode.sort c :: FileNode.sortList cs

end

/-- `ExecutableFile` from `sections.rs` (the `name` is the byte
sequence of the display-name string). -/
structure ExecutableFile where
  file_root : FileNode
  ram_root : FileNode
  inspector_collapsed : Bool
  name : List Nat

/-- Outcome classification for `load_from_bytes`: the explicit
`Err(anyhow!("Magic ELF bytes were wrong."))` return, or a process
abort (panic) with a tag naming the aborting operation. -/
inductive LoadErr : Type where
  | badMagic
  | panicked (site : String)
deriving Repr, DecidableEq

/-! ## The stages of `load_from_bytes` -/

/-- The `"ELF Header"` node pushed first. -/
def elfHeaderNode (h : Header) : FileNode :=
  .mk (str2bytes "ELF Header") 0 h.e_ehsize 0 0 0 h.e_ehsize .ElfHeader [] []

/-- The `"Program Header Segment #i"` nodes, for `i < e_phnum`. -/
def phNodes (h : Header) : List FileNode :=
  (List.range h.e_phnum).map fun i =>
    .mk (str2bytes "Program Header Segment #" ++ natToDecBytes i)
      (h.e_phoff + i * h.e_phentsize) (h.e_phoff + (i + 1) * h.e_phentsize)
      0 0
      (h.e_phoff + i * h.e_phentsize) (h.e_phoff + (i + 1) * h.e_phentsize)
      .ElfProgramHeader [] []

/-- The first per-section loop: one `"ELF Section Header for …"` node
per record; `none` when a name lookup panics. -/
def shdrEntryNodesFrom (h : Header) (table : List Nat) :
    Nat → List SectionHeader → Option (List FileNode)
  | _, [] => some []
  | i, sh :: rest =>
    match parse_str_table table sh.sh_name with
    | none => none
    | some nm =>
      match shdrEntryNodesFrom h table (i + 1) rest with
      | none => none
      | some nodes =>
        some
          (.mk (str2bytes "ELF Section Header for " ++ nm)
            (h.e_shoff + i * h.e_shentsize) (h.e_shoff + (i + 1) * h.e_shentsize)
            0 0
            (h.e_shoff + i * h.e_shentsize) (h.e_shoff + (i + 1) * h.e_shentsize)
            .ElfSectionHeader [] [] :: nodes)

def shdrEntryNodes (h : Header) (table : List Nat) (shs : List SectionHeader) :
    Option (List FileNode) :=
  shdrEntryNodesFrom h table 0 shs

/-- The notes attached to a section node: decoded type, decoded flags,
address alignment, plus — for `SHT_DYNAMIC` / `SHT_REL` / `SHT_RELA`
sections — the resolved link-section name. -/
def sectionNotes (sh : SectionHeader) (link_name : List Nat) :
    List (List Nat × List Nat) :=
  [(str2bytes "type", sht_to_str sh.sh_type),
   (str2bytes "flags", flagsString sh.sh_flags),
   (str2bytes "address alignment", natToHexBytes sh.sh_addralign)] ++
  (if sh.sh_type = SHT_DYNAMIC then
    [(str2bytes "string table in section", link_name)]
  else if sh.sh_type = SHT_REL ∨ sh.sh_type = SHT_RELA then
    [(str2bytes "symbol table in section", link_name)]
  else [])

/-- The `sh_link` resolution performed for every record: the name of
the linked section, or the `"bad link section"` fallback when the link
index is out of range. -/
def linkNameOf (all : List SectionHeader) (table : List Nat)
    (sh : SectionHeader) : Option (List Nat) :=
  match all[sh.sh_link]? with
  | some sh2 => parse_str_table table sh2.sh_name
  | none => some (str2bytes "bad link section")

/-- The second per-section loop, producing (in original record order)
the virtual-space children and the remaining file-space children.  The
link name is resolved for every record (the source computes it before
testing the section type), so its panic is reachable for every record;
`none` collapses any such panic. -/
def sectionNodes (all : List SectionHeader) (table : List Nat) :
    List SectionHeader → Option (List FileNode × List FileNode)
  | [] => some ([], [])
  | sh :: rest =>
    match linkNameOf all table sh with
    | none => none
    | some link_name =>
      match parse_str_table table sh.sh_name with
      | none => none
      | some nm =>
        match sectionNodes all table rest with
        | none => none
        | some rf =>
          let notes := sectionNotes sh link_name
          some
            ((if sh.sh_flags &&& SHF_ALLOC ≠ 0 then
                [.mk nm sh.sh_addr (sh.sh_addr + sh.sh_size)
                  sh.sh_addr (sh.sh_addr + sh.sh_size)
                  sh.sh_offset (sh.sh_offset + sh.sh_size)
                  .ElfSectionHeader notes []]
              else []) ++ rf.1,
             (if sh.sh_type ≠ SHT_NOBITS ∧ sh.sh_type ≠ SHT_NULL then
                [.mk nm sh.sh_offset (sh.sh_offset + sh.sh_size)
                  sh.sh_addr (sh.sh_addr + sh.sh_size)
                  sh.sh_offset (sh.sh_offset + sh.sh_size)
                  .ElfSectionHeader notes []]
              else []) ++ rf.2)

/-- `Iterator::max` over the `bytes_end` values (`Option`-valued). -/
def maxEnd (l : List FileNode) : Option Nat :=
  match l.map FileNode.bytes_end with
  | [] => none
  | a :: as => some (as.foldl max a)

/-- `ExecutableFile::load_from_bytes` from `sections.rs`.  Each early
`.error` names the Rust operation that aborts there; the overlap-check
double loop only prints warnings and is omitted as a pure side
effect. -/
def load_from_bytes (name : List Nat) (data : List Nat) :
    Except LoadErr ExecutableFile :=
  if data.length < 4 ∨ data.take 4 ≠ [0x7f, 0x45, 0x4c, 0x46] then
    .error .badMagic
  else
    match Header.parse data with
    | none => .error (.panicked "Header::parse(data).unwrap()")
    | some header =>
      if header.e_shoff > data.length then
        .error (.panicked "slice data[e_shoff..]")
      else
        match SectionHeader.from_bytes (data.drop header.e_shoff) header.e_shnum with
        | none => .error (.panicked "SectionHeader::from_bytes expect")
        | some section_headers =>
          match section_headers[header.e_shstrndx]? with
          | none => .error (.panicked "section_headers[e_shstrndx] index")
          | some str_table_header =>
            let str_table_start := str_table_header.sh_offset
            let str_table_end := str_table_start + str_table_header.sh_size
            if str_table_end > data.length then
              .error (.panicked "slice data[str_table_start..str_table_end]")
            else
              let section_name_table :=
                (data.drop str_table_start).take (str_table_end - str_table_start)
              match shdrEntryNodes header section_name_table section_headers with
              | none => .error (.panicked "parse_str_table unwrap (section header entry)")
              | some shNodes =>
                match sectionNodes section_headers section_name_table section_headers with
                | none => .error (.panicked "parse_str_table unwrap (section loop)")
                | some rf =>
                  let ram_children := rf.1
                  let file_children :=
                    elfHeaderNode header :: (phNodes header ++ shNodes ++ rf.2)
                  let file_root :=
                    FileNode.sort
                      (.mk (str2bytes "ELF file") 0 data.length 0 0 0 data.length
                        .Root [] file_children)
                  match maxEnd ram_children with
                  | none => .error (.panicked "ram_children max().unwrap()")
                  | some ram_bytes_end =>
                    let ram_root :=
                      FileNode.sort
                        (.mk (str2bytes "RAM") 0 ram_bytes_end 0 ram_bytes_end 0 data.length
                          .Root [] ram_children)
                    .ok
                      { file_root := file_root
                        ram_root := ram_root
                        inspector_collapsed := false
                        name := name }

/-! ## Result projections used by the concrete theorems -/

/-- The error of a failed load, `none` on success. -/
def loadErr? (r : Except LoadErr ExecutableFile) : Option LoadErr :=
  match r with
  | .ok _ => none
  | .error e => some e

/-- The file-space root of a successful load. -/
def loadedFileRoot (r : Except LoadErr ExecutableFile) : Option FileNode :=
  match r with
  | .ok f => some f.file_root
  | .error _ => none

/-- The virtual-space root of a successful load. -/
def loadedRamRoot (r : Except LoadErr ExecutableFile) : Option FileNode :=
  match r with
  | .ok f => some f.ram_root
  | .error _ => none

/-- The `(bytes_start, bytes_end)` ranges of a node's children, in
tree order. -/
def childRanges (n : FileNode) : List (Nat × Nat) :=
  n.children.map fun c => (c.bytes_start, c.bytes_end)

/-- Ranges of the file-space root's children (empty on failure). -/
def fileChildRanges (r : Except LoadErr ExecutableFile) : List (Nat × Nat) :=
  ((loadedFileRoot r).map childRanges).getD []

/-- Ranges of the virtual-space root's children (empty on failure). -/
def ramChildRanges (r : Except LoadErr ExecutableFile) : List (Nat × Nat) :=
  ((loadedRamRoot r).map childRanges).getD []

/-- Number of grandchildren below each file-space root child. -/
def fileGrandchildCounts (r : Except LoadErr ExecutableFile) : List Nat :=
  ((loadedFileRoot r).map (fun n => n.children.map (fun c => c.children.length))).getD []

/-- The first file-space root child starting at `s` (used to inspect a
specific region of a concrete tree). -/
def fileChildAt (r : Except LoadErr ExecutableFile) (s : Nat) : Option FileNode :=
  match loadedFileRoot r with
  | some n => n.children.find? (fun c => c.bytes_start == s)
  | none => none

/-! ## Concrete test buffers

Little-endian ELF64 images, built from the header/section-header
layouts the model reads back. -/

/-- A 64-byte ELF64 header: magic, class 64, little-endian, version 1;
no program headers; section-header table of `shnum` 64-byte entries at
`shoff`; name string table at section index `shstrndx`. -/
def mkEhdr (shoff shnum shstrndx : Nat) : List Nat :=
  [0x7f, 0x45, 0x4c, 0x46, 2, 1, 1, 0, 0, 0, 0, 0, 0, 0, 0, 0] ++
  le 2 2 ++ le 2 0x3e ++ le 4 1 ++ le 8 0 ++
  le 8 0 ++ le 8 shoff ++ le 4 0 ++
  le 2 64 ++ le 2 0 ++ le 2 0 ++
  le 2 64 ++ le 2 shnum ++ le 2 shstrndx

/-- A 64-byte ELF64 section-header record (`sh_info = 0`,
`sh_addralign = 1`, `sh_entsize = 0`). -/
def mkShdr (nm ty flags addr off size link : Nat) : List Nat :=
  le 4 nm ++ le 4 ty ++ le 8 flags ++ le 8 addr ++ le 8 off ++ le 8 size ++
  le 4 link ++ le 4 0 ++ le 8 1 ++ le 8 0

/-- Name string table blob: `""` at 0, `".shstrtab"` at 1, `"a"` at 11,
`"b"` at 13; 15 bytes. -/
def strtabBytes : List Nat :=
  [0] ++ str2bytes ".shstrtab" ++ [0] ++ str2bytes "a" ++ [0] ++ str2bytes "b" ++ [0]

/-- Zero-pad a buffer to length `n`. -/
def padTo (l : List Nat) (n : Nat) : List Nat :=
  l ++ List.replicate (n - l.length) 0

/-- A display name used by the concrete loads. -/
def nm0 : List Nat := str2bytes "t"

/-- Well-formed image (456 bytes): null section, string table at
`[64,79)`, section `"a"` = `[100,200)` (alloc, addr 0x1000), section
`"b"` = `[150,160)` (alloc, addr 0x2000); section-header table at
`[200,456)`. -/
def exGood : List Nat :=
  padTo (mkEhdr 200 4 1 ++ strtabBytes) 200 ++
  mkShdr 0 0 0 0 0 0 0 ++
  mkShdr 1 3 0 0 64 15 0 ++
  mkShdr 11 1 2 0x1000 100 100 0 ++
  mkShdr 13 1 2 0x2000 150 10 0

/-- As `exGood`, but section `"a"` has `sh_size = 1000`, so its file
range `[100,1100)` extends past the 456-byte buffer. -/
def exBig : List Nat :=
  padTo (mkEhdr 200 4 1 ++ strtabBytes) 200 ++
  mkShdr 0 0 0 0 0 0 0 ++
  mkShdr 1 3 0 0 64 15 0 ++
  mkShdr 11 1 2 0x1000 100 1000 0 ++
  mkShdr 13 1 2 0x2000 150 10 0

/-- As `exGood`, but sections `"a" = [100,200)` and `"b" = [100,150)`
share the same start offset. -/
def exDup : List Nat :=
  padTo (mkEhdr 200 4 1 ++ strtabBytes) 200 ++
  mkShdr 0 0 0 0 0 0 0 ++
  mkShdr 1 3 0 0 64 15 0 ++
  mkShdr 11 1 2 0x1000 100 100 0 ++
  mkShdr 13 1 2 0x2000 100 50 0

/-- As `exGood`, but section `"a"` has `sh_offset = 120`, `sh_size = 0`
(a zero-length section) and `"b" = [130,140)`. -/
def exZero : List Nat :=
  padTo (mkEhdr 200 4 1 ++ strtabBytes) 200 ++
  mkShdr 0 0 0 0 0 0 0 ++
  mkShdr 1 3 0 0 64 15 0 ++
  mkShdr 11 1 2 0x1000 120 0 0 ++
  mkShdr 13 1 2 0x2000 130 10 0

/-- As `exGood`, but section `"a" = [100,110)` has `sh_name = 100`,
past the 15-byte string table. -/
def exBadName : List Nat :=
  padTo (mkEhdr 200 4 1 ++ strtabBytes) 200 ++
  mkShdr 0 0 0 0 0 0 0 ++
  mkShdr 1 3 0 0 64 15 0 ++
  mkShdr 100 1 2 0x1000 100 10 0 ++
  mkShdr 13 1 2 0x2000 120 10 0

/-- Correct magic but only 20 bytes — shorter than the 64-byte fixed
header. -/
def exTrunc : List Nat :=
  [0x7f, 0x45, 0x4c, 0x46] ++ List.replicate 16 0

/-- A bare 64-byte header whose `e_shoff = 100` points past the
buffer. -/
def exShoff : List Nat := mkEhdr 100 1 0

/-- A bare 64-byte header claiming 5 section headers at `e_shoff = 64`,
where no bytes remain. -/
def exShCount : List Nat := mkEhdr 64 5 0

/-- One section-header record whose string table is claimed at
`[1000,1010)`, outside the 128-byte buffer. -/
def exStrOOB : List Nat :=
  mkEhdr 64 1 0 ++ mkShdr 0 3 0 0 1000 10 0

/-- Null section and string table only — no section has `SHF_ALLOC`
set, so the virtual-space tree has no candidate regions. -/
def exNoAlloc : List Nat :=
  padTo (mkEhdr 100 2 1 ++ strtabBytes) 100 ++
  mkShdr 0 0 0 0 0 0 0 ++
  mkShdr 1 3 0 0 64 15 0

instance : Inhabited ExecutableFile := ⟨⟨default, default, false, []⟩⟩

/-- The successfully loaded file for the well-formed image `exGood`. -/
def fGood : ExecutableFile := ((load_from_bytes nm0 exGood).toOption).getD default

/-- The header decoded from `exShoff` (used to instantiate the generic
part of the C2 theorem). -/
def hdrShoff : Header := (Header.parse exShoff).getD default

example :
    fileChildRanges (load_from_bytes nm0 exGood) =
      [(0, 64), (64, 79), (100, 200), (150, 160),
       (200, 264), (264, 328), (328, 392), (392, 456)] := by decide

example :
    ramChildRanges (load_from_bytes nm0 exGood) = [(4096, 4196), (8192, 8202)] := by
  decide

example :
    (loadedRamRoot (load_from_bytes nm0 exGood)).map FileNode.bytes_end = some 8202 := by
  decide

example : loadErr? (load_from_bytes nm0 exTrunc) = some (.panicked "Header::parse(data).unwrap()") := by decide

example : loadErr? (load_from_bytes nm0 exShoff) = some (.panicked "slice data[e_shoff..]") := by decide

example : loadErr? (load_from_bytes nm0 exShCount) = some (.panicked "SectionHeader::from_bytes expect") := by decide

example : loadErr? (load_from_bytes nm0 exStrOOB) = some (.panicked "slice data[str_table_start..str_table_end]") := by decide

example : loadErr? (load_from_bytes nm0 exNoAlloc) = some (.panicked "ram_children max().unwrap()") := by decide

example :
    fileChildRanges (load_from_bytes nm0 exDup) =
      [(0, 64), (64, 79), (100, 200), (100, 150),
       (200, 264), (264, 328), (328, 392), (392, 456)] := by decide

example :
    fileChildRanges (load_from_bytes nm0 exZero) =
      [(0, 64), (64, 79), (120, 120), (130, 140),
       (200, 264), (264, 328), (328, 392), (392, 456)] := by decide

example :
    (fileChildAt (load_from_bytes nm0 exBadName) 100).map FileNode.name =
      some placeholderName := by decide

example :
    (fileChildAt (load_from_bytes nm0 exBadName) 100).map FileNode.notes =
      some [(str2bytes "type", str2bytes "SHT_PROGBITS"),
            (str2bytes "flags", str2bytes "SHF_ALLOC"),
            (str2bytes "address alignment", str2bytes "0x1")] := by decide

/-! ## Supporting lemmas -/

theorem sort_children (x : FileNode) :
    (FileNode.sort x).children = sortByStart (FileNode.sortList x.children) := by
  cases x
  rfl

theorem sort_bytes_start (x : FileNode) :
    (FileNode.sort x).bytes_start = x.bytes_start := by
  cases x
  rfl

theorem sort_bytes_end (x : FileNode) :
    (FileNode.sort x).bytes_end = x.bytes_end := by
  cases x
  rfl

theorem sortList_eq_map (l : List FileNode) :
    FileNode.sortList l = l.map FileNode.sort := by
  induction l with
  | nil => rfl
  | cons c cs ih => simp [FileNode.sortList, ih]

theorem mem_sortByStart {x : FileNode} {l : List FileNode} :
    x ∈ sortByStart l ↔ x ∈ l :=
  (List.perm_insertionSort byStart l).mem_iff

theorem length_sortByStart (l : List FileNode) :
    (sortByStart l).length = l.length :=
  List.length_insertionSort byStart l

theorem sorted_sortByStart (l : List FileNode) :
    List.Sorted byStart (sortByStart l) :=
  List.sorted_insertionSort byStart l

/-- Membership in a sorted-and-recursed child list comes from a member
of the original list. -/
theorem mem_sortedChildren {c : FileNode} {l : List FileNode} :
    c ∈ sortByStart (FileNode.sortList l) ↔ ∃ o ∈ l, c = FileNode.sort o := by
  rw [mem_sortByStart, sortList_eq_map, List.mem_map]
  constructor
  · rintro ⟨o, ho, rfl⟩
    exact ⟨o, ho, rfl⟩
  · rintro ⟨o, ho, rfl⟩
    exact ⟨o, ho, rfl⟩

theorem le_foldl_max (l : List Nat) (a : Nat) :
    a ≤ l.foldl max a ∧ ∀ x ∈ l, x ≤ l.foldl max a := by
  induction l generalizing a with
  | nil => exact ⟨Nat.le_refl a, by simp⟩
  | cons b l ih =>
    refine ⟨Nat.le_trans (Nat.le_max_left a b) (ih (max a b)).1, ?_⟩
    intro x hx
    rcases List.mem_cons.mp hx with rfl | hx
    · exact Nat.le_trans (Nat.le_max_right a x) (ih (max a x)).1
    · exact (ih (max a b)).2 x hx

theorem foldl_max_mem (l : List Nat) (a : Nat) :
    l.foldl max a = a ∨ l.foldl max a ∈ l := by
  induction l generalizing a with
  | nil => exact Or.inl rfl
  | cons b l ih =>
    simp only [List.foldl_cons]
    rcases ih (max a b) with h | h
    · rcases max_choice a b with hm | hm
      · exact Or.inl (h.trans hm)
      · exact Or.inr (List.mem_cons.mpr (Or.inl (h.trans hm)))
    · exact Or.inr (List.mem_cons_of_mem b h)

theorem maxEnd_spec {l : List FileNode} {m : Nat} (h : maxEnd l = some m) :
    (∃ c ∈ l, c.bytes_end = m) ∧ ∀ c ∈ l, c.bytes_end ≤ m := by
  cases l with
  | nil => simp [maxEnd] at h
  | cons c cs =>
    have hm : (cs.map FileNode.bytes_end).foldl max c.bytes_end = m := by
      simpa [maxEnd] using h
    constructor
    · rcases foldl_max_mem (cs.map FileNode.bytes_end) c.bytes_end with h0 | h0
      · exact ⟨c, List.mem_cons_self c cs, by rw [← hm, h0]⟩
      · rcases List.mem_map.mp h0 with ⟨o, ho, he⟩
        exact ⟨o, List.mem_cons_of_mem c ho, by rw [← hm, he]⟩
    · intro x hx
      rcases List.mem_cons.mp hx with rfl | hx
      · exact hm ▸ (le_foldl_max (cs.map FileNode.bytes_end) x.bytes_end).1
      · exact hm ▸ (le_foldl_max (cs.map FileNode.bytes_end) c.bytes_end).2
          x.bytes_end (List.mem_map.mpr ⟨x, hx, rfl⟩)

theorem maxEnd_ne_nil {l : List FileNode} {m : Nat} (h : maxEnd l = some m) :
    l ≠ [] := by
  intro hn
  subst hn
  simp [maxEnd] at h

theorem phNodes_leaf {h : Header} {x : FileNode} (hx : x ∈ phNodes h) :
    x.children = [] := by
  rcases List.mem_map.mp hx with ⟨i, _, rfl⟩
  rfl

theorem shdrEntryNodesFrom_leaf {h : Header} {table : List Nat} :
    ∀ {i : Nat} {shs : List SectionHeader} {nodes : List FileNode},
      shdrEntryNodesFrom h table i shs = some nodes →
      ∀ x ∈ nodes, x.children = [] := by
  intro i shs
  induction shs generalizing i with
  | nil =>
    intro nodes hn x hx
    simp [shdrEntryNodesFrom] at hn
    subst hn
    cases hx
  | cons sh rest ih =>
    intro nodes hn x hx
    simp only [shdrEntryNodesFrom] at hn
    split at hn
    · cases hn
    · split at hn
      · cases hn
      · cases hn
        rcases List.mem_cons.mp hx with rfl | hx
        · rfl
        · exact ih (by assumption) x hx

theorem sectionNodes_leaf {all : List SectionHeader} {table : List Nat} :
    ∀ {shs : List SectionHeader} {rams files : List FileNode},
      sectionNodes all table shs = some (rams, files) →
      (∀ x ∈ rams, x.children = []) ∧ (∀ x ∈ files, x.children = []) := by
  intro shs
  induction shs with
  | nil =>
    intro rams files hn
    simp [sectionNodes] at hn
    obtain ⟨rfl, rfl⟩ := hn
    exact ⟨by simp, by simp⟩
  | cons sh rest ih =>
    intro rams files hn
    simp only [sectionNodes] at hn
    split at hn
    · cases hn
    · split at hn
      · cases hn
      · split at hn
        · cases hn
        · rename_i rf heq
          rw [Option.some.injEq, Prod.mk.injEq] at hn
          obtain ⟨hr, hf⟩ := hn
          subst hr
          subst hf
          obtain ⟨ihr, ihf⟩ := @ih rf.1 rf.2 (by rw [heq])
          constructor
          · intro x hx
            rcases List.mem_append.mp hx with hx | hx
            · split at hx
              · rcases List.mem_singleton.mp hx with rfl
                rfl
              · cases hx
            · exact ihr x hx
          · intro x hx
            rcases List.mem_append.mp hx with hx | hx
            · split at hx
              · rcases List.mem_singleton.mp hx with rfl
                rfl
              · cases hx
            · exact ihf x hx

/-- A node whose children list is empty stays a leaf after sorting. -/
theorem sort_leaf {o : FileNode} (ho : o.children = []) :
    (FileNode.sort o).children = [] := by
  rw [sort_children, ho]
  rfl

theorem shdrEntryNodes_leaf {h : Header} {table : List Nat}
    {shs : List SectionHeader} {nodes : List FileNode}
    (hn : shdrEntryNodes h table shs = some nodes) :
    ∀ x ∈ nodes, x.children = [] :=
  shdrEntryNodesFrom_leaf hn

/-- Everything the generic claim theorems need about the result of a
successful `load_from_bytes`: the spans of the two roots, the
max-characterisation of the virtual root's end, non-emptiness of the
virtual root's children, sortedness of both child lists, and the fact
that every root child is a leaf (the parse never nests regions). -/
theorem load_ok_shape {name data : List Nat} {f : ExecutableFile}
    (h : load_from_bytes name data = .ok f) :
    f.file_root.bytes_start = 0 ∧
    f.file_root.bytes_end = data.length ∧
    f.ram_root.bytes_start = 0 ∧
    (∃ c ∈ f.ram_root.children, c.bytes_end = f.ram_root.bytes_end) ∧
    (∀ c ∈ f.ram_root.children, c.bytes_end ≤ f.ram_root.bytes_end) ∧
    f.ram_root.children ≠ [] ∧
    List.Sorted byStart f.file_root.children ∧
    List.Sorted byStart f.ram_root.children ∧
    (∀ c ∈ f.file_root.children, c.children = []) ∧
    (∀ c ∈ f.ram_root.children, c.children = []) := by
  simp only [load_from_bytes] at h
  split at h
  · cases h
  · split at h
    · cases h
    · rename_i header hH
      split at h
      · cases h
      · split at h
        · cases h
        · rename_i shs hSH
          split at h
          · cases h
          · rename_i sth hIdx
            split at h
            · cases h
            · split at h
              · cases h
              · rename_i shNodes hShN
                split at h
                · cases h
                · rename_i rf hSN
                  split at h
                  · cases h
                  · rename_i m hMax
                    injection h with h
                    subst h
                    have hsecleaf :
                        (∀ x ∈ rf.1, FileNode.children x = []) ∧
                        (∀ x ∈ rf.2, FileNode.children x = []) :=
                      sectionNodes_leaf (show _ = some (rf.1, rf.2) by rw [hSN])
                    refine ⟨?_, ?_, ?_, ?_, ?_, ?_, ?_, ?_, ?_, ?_⟩
                    · rw [sort_bytes_start]
                      rfl
                    · rw [sort_bytes_end]
                      rfl
                    · rw [sort_bytes_start]
                      rfl
                    · obtain ⟨⟨o, ho, hoe⟩, _⟩ := maxEnd_spec hMax
                      refine ⟨FileNode.sort o, ?_, ?_⟩
                      · rw [sort_children]
                        exact mem_sortedChildren.mpr ⟨o, ho, rfl⟩
                      · rw [sort_bytes_end, sort_bytes_end, hoe]
                        rfl
                    · intro c hc
                      rw [sort_children] at hc
                      obtain ⟨o, ho, rfl⟩ := mem_sortedChildren.mp hc
                      rw [sort_bytes_end, sort_bytes_end]
                      exact (maxEnd_spec hMax).2 o ho
                    · rw [sort_children]
                      intro hemp
                      apply maxEnd_ne_nil hMax
                      have hlen := congrArg List.length hemp
                      rw [length_sortByStart, sortList_eq_map, List.length_map] at hlen
                      exact List.length_eq_zero.mp hlen
                    · rw [sort_children]
                      exact sorted_sortByStart _
                    · rw [sort_children]
                      exact sorted_sortByStart _
                    · intro c hc
                      rw [sort_children] at hc
                      obtain ⟨o, ho, rfl⟩ := mem_sortedChildren.mp hc
                      apply sort_leaf
                      rcases List.mem_cons.mp ho with rfl | ho
                      · rfl
                      · rcases List.mem_append.mp ho with ho | ho
                        · rcases List.mem_append.mp ho with ho | ho
                          · exact phNodes_leaf ho
                          · exact shdrEntryNodes_leaf hShN _ ho
                        · exact hsecleaf.2 _ ho
                    · intro c hc
                      rw [sort_children] at hc
                      obtain ⟨o, ho, rfl⟩ := mem_sortedChildren.mp hc
                      exact sort_leaf (hsecleaf.1 _ ho)

/-- No nul byte in the tail means `CStr::from_bytes_until_nul` fails. -/
theorem takeUntilNul_none {l : List Nat} (h : ∀ b ∈ l, b ≠ 0) :
    takeUntilNul l = none := by
  induction l with
  | nil => rfl
  | cons b rest ih =>
    unfold takeUntilNul
    rw [if_neg (h b (List.mem_cons_self b rest)),
      ih (fun x hx => h x (List.mem_cons_of_mem b hx))]
    rfl

/-! ## Claim C1 -/

/-- C1, counterexample.  On `exGood` the section-header-derived ranges
`[100,200)` and `[150,160)` both end up as direct children of the
file-space root (positions 2 and 3 of the sorted sibling list), and no
root child has any children of its own.  Hence `[150,160)` is a sibling,
not a child, of `[100,200)`, and this pair of same-tree regions is
neither disjoint nor in a containment relation — contradicting the
claim. -/
theorem C1_counterexample :
    fileChildRanges (load_from_bytes nm0 exGood) =
      [(0, 64), (64, 79), (100, 200), (150, 160),
       (200, 264), (264, 328), (328, 392), (392, 456)] ∧
    fileGrandchildCounts (load_from_bytes nm0 exGood) =
      [0, 0, 0, 0, 0, 0, 0, 0] := by decide

/-- C1, amended.  `load_from_bytes` performs no containment resolution:
in every successfully produced tree each region is a direct leaf child
of the synthetic root (overlapping pairs merely trigger a console
warning), so the extracted ranges `[100,200)` and `[150,160)` coexist
as partially overlapping siblings of the root. -/
theorem C1_theorem :
    (∀ name data f, load_from_bytes name data = .ok f →
      (∀ c ∈ f.file_root.children, c.children = []) ∧
      (∀ c ∈ f.ram_root.children, c.children = [])) ∧
    (100, 200) ∈ fileChildRanges (load_from_bytes nm0 exGood) ∧
    (150, 160) ∈ fileChildRanges (load_from_bytes nm0 exGood) := by
  refine ⟨fun name data f h => ?_, by decide, by decide⟩
  obtain ⟨-, -, -, -, -, -, -, -, h9, h10⟩ := load_ok_shape h
  exact ⟨h9, h10⟩

/-- C1, witness: the universally quantified part instantiated on the
concrete successful load of `exGood`. -/
theorem C1_witness :
    fGood.file_root.children.all (fun c => c.children.isEmpty) = true := by
  have h := (C1_theorem.1 nm0 exGood fGood (by rfl)).1
  rw [List.all_eq_true]
  intro c hc
  rw [h c hc]
  rfl

/-! ## Claim C2 -/

/-- C2, counterexample.  `exShoff` has a valid magic and full header but
`e_shoff = 100 > 64 = len`: the claim demands a typed
`MalformedTableBounds` error, but `load_from_bytes` instead aborts at
the unchecked slice `&data[header.e_shoff as usize..]` (modelled as
`LoadErr.panicked`); no typed `Malformed` error value exists in the
code. -/
theorem C2_counterexample :
    loadErr? (load_from_bytes nm0 exShoff) =
      some (.panicked "slice data[e_shoff..]") := by decide

/-- C2, amended.  No bounds check precedes any of the three
header-driven table accesses: a section-header-table offset past the
buffer aborts at the slice (proved for every such buffer), an
entry-count overrunning the buffer aborts inside
`SectionHeader::from_bytes`, and a string table reaching past the
buffer aborts at its slice — the parse aborts (panics) rather than
returning a typed `Malformed` error. -/
theorem C2_theorem :
    (∀ name data hdr, 4 ≤ List.length data →
      data.take 4 = [0x7f, 0x45, 0x4c, 0x46] →
      Header.parse data = some hdr →
      hdr.e_shoff > List.length data →
      load_from_bytes name data = .error (.panicked "slice data[e_shoff..]")) ∧
    loadErr? (load_from_bytes nm0 exShCount) =
      some (.panicked "SectionHeader::from_bytes expect") ∧
    loadErr? (load_from_bytes nm0 exStrOOB) =
      some (.panicked "slice data[str_table_start..str_table_end]") := by
  refine ⟨fun name data hdr h4 hm hp hoff => ?_, by decide, by decide⟩
  simp only [load_from_bytes, hp]
  rw [if_neg (by push_neg; exact ⟨by omega, hm⟩), if_pos hoff]

/-- C2, witness: the universally quantified part instantiated on
`exShoff` and its decoded header. -/
theorem C2_witness :
    load_from_bytes nm0 exShoff = .error (.panicked "slice data[e_shoff..]") :=
  C2_theorem.1 nm0 exShoff hdrShoff (by decide) (by decide) (by rfl) (by decide)

/-! ## Claim C3 -/

/-- C3, counterexample.  `exTrunc` starts with the correct magic but has
only 20 bytes: the claim demands a typed `TruncatedHeader` error, but
`load_from_bytes` aborts at `Header::parse(data).unwrap()` (modelled as
`LoadErr.panicked`); no typed error is returned. -/
theorem C3_counterexample :
    loadErr? (load_from_bytes nm0 exTrunc) =
      some (.panicked "Header::parse(data).unwrap()") ∧
    (load_from_bytes nm0 exTrunc).toOption.isSome = false := by decide

/-- C3, amended.  For every buffer with the correct 4-byte magic that is
shorter than the fixed 64-byte header layout, `load_from_bytes` panics
at the `unwrap` of the failed header parse — it aborts rather than
returning a typed `TruncatedHeader` error, and no tree is produced. -/
theorem C3_theorem (name data : List Nat)
    (h4 : 4 ≤ List.length data)
    (hm : data.take 4 = [0x7f, 0x45, 0x4c, 0x46])
    (hlen : List.length data < 64) :
    load_from_bytes name data = .error (.panicked "Header::parse(data).unwrap()") := by
  have hN : Header.parse data = none := by
    unfold Header.parse
    rw [if_pos hlen]
  unfold load_from_bytes
  rw [if_neg (by push_neg; exact ⟨by omega, hm⟩), hN]

/-- C3, witness: the theorem instantiated on the 20-byte truncated
buffer. -/
theorem C3_witness :
    load_from_bytes nm0 exTrunc = .error (.panicked "Header::parse(data).unwrap()") :=
  C3_theorem nm0 exTrunc (by decide) (by decide) (by decide)

/-! ## Claim C4 -/

/-- C4, counterexample.  `exZero` holds a `SHT_PROGBITS` section with
`sh_offset = 120`, `sh_size = 0`.  The produced file-space tree contains
the zero-length region `[120,120)` and no region `[120,121)` — no
widening to length 1 happens, and a zero-length region does appear in a
produced tree. -/
theorem C4_counterexample :
    (120, 120) ∈ fileChildRanges (load_from_bytes nm0 exZero) ∧
    (120, 121) ∉ fileChildRanges (load_from_bytes nm0 exZero) := by decide

/-- C4, amended.  A section header with `sh_offset = X`, `sh_size = 0`
(and a file-resident type) yields the zero-length region `[X, X)`,
carrying only the standard type/flags/alignment notes — no widening and
no explanatory note. -/
theorem C4_theorem :
    (fileChildAt (load_from_bytes nm0 exZero) 120).map
        (fun c => (c.bytes_start, c.bytes_end, c.notes)) =
      some (120, 120,
        [(str2bytes "type", str2bytes "SHT_PROGBITS"),
         (str2bytes "flags", str2bytes "SHF_ALLOC"),
         (str2bytes "address alignment", str2bytes "0x1")]) := by decide

/-! ## Claim C5 -/

/-- C5, counterexample.  For the one-byte string table `"a"` (no nul)
and offset 0, the claim demands the remainder `"a"` as the name; the
resolver instead hits the `Err` of `CStr::from_bytes_until_nul` and the
`unwrap` aborts (modelled as `none`). -/
theorem C5_counterexample :
    parse_str_table (str2bytes "a") 0 = none ∧
    parse_str_table (str2bytes "a") 0 ≠ some (str2bytes "a") := by decide

/-- C5, amended.  For every string-table slice and in-range offset such
that no nul terminator occurs from the offset to the end of the slice,
`parse_str_table` panics at its `unwrap` (modelled as `none`) — it never
returns the remainder of the slice. -/
theorem C5_theorem (data : List Nat) (offset : Nat)
    (hin : offset ≤ List.length data)
    (hnonul : ∀ b ∈ data.drop offset, b ≠ 0) :
    parse_str_table data offset = none := by
  unfold parse_str_table
  rw [if_neg (by omega), takeUntilNul_none hnonul]

/-- C5, witness: the theorem instantiated on the nul-free slice `"a"`
at offset 0. -/
theorem C5_witness : parse_str_table (str2bytes "a") 0 = none :=
  C5_theorem (str2bytes "a") 0 (by decide) (by decide)

/-! ## Claim C6 -/

/-- C6, counterexample.  On `exBadName`, the section whose `sh_name`
(100) exceeds the 15-byte string table gets the fixed placeholder as its
name, but its notes are exactly the three standard entries
(type/flags/address alignment): contrary to the claim, no additional
diagnostic note is attached to the affected region.  The remaining
conjunct shows the rest of the parse is unaffected (a complete tree with
all eight regions is produced). -/
theorem C6_counterexample :
    (fileChildAt (load_from_bytes nm0 exBadName) 100).map
        (fun c => (c.name, c.notes.map Prod.fst)) =
      some (placeholderName,
        [str2bytes "type", str2bytes "flags", str2bytes "address alignment"]) ∧
    fileChildRanges (load_from_bytes nm0 exBadName) =
      [(0, 64), (64, 79), (100, 110), (120, 130),
       (200, 264), (264, 328), (328, 392), (392, 456)] := by decide

/-- C6, amended.  A name offset strictly greater than the slice length
makes the resolver return the fixed diagnostic placeholder instead of
failing (proved for every slice and offset), and this is non-fatal: on
`exBadName` the parse succeeds, the affected region carries the
placeholder as its name, and a complete tree is produced — but the
region carries no additional diagnostic note beyond its standard
notes. -/
theorem C6_theorem :
    (∀ data offset, offset > List.length data →
      parse_str_table data offset = some placeholderName) ∧
    (load_from_bytes nm0 exBadName).toOption.isSome = true ∧
    (fileChildAt (load_from_bytes nm0 exBadName) 100).map
        (fun c => (c.name, c.notes)) =
      some (placeholderName,
        [(str2bytes "type", str2bytes "SHT_PROGBITS"),
         (str2bytes "flags", str2bytes "SHF_ALLOC"),
         (str2bytes "address alignment", str2bytes "0x1")]) := by
  refine ⟨fun data offset h => ?_, by decide, by decide⟩
  unfold parse_str_table
  rw [if_pos h]

/-- C6, witness: the universally quantified part instantiated on the
empty slice and offset 1. -/
theorem C6_witness : parse_str_table [] 1 = some placeholderName :=
  C6_theorem.1 [] 1 (by decide)

/-! ## Claim C7 -/

/-- C7, counterexample.  On `exBig` (456 bytes, one section claiming
`[100,1100)`), the file-space root ends at 456 while the tree contains
the region `[100,1100)` with `1100 > 456`: the root does not transitively
contain every region of its tree. -/
theorem C7_counterexample :
    (loadedFileRoot (load_from_bytes nm0 exBig)).map FileNode.bytes_end =
      some 456 ∧
    (100, 1100) ∈ fileChildRanges (load_from_bytes nm0 exBig) ∧
    ¬(1100 ≤ 456) := by decide

/-- C7, amended.  For every successful parse the file-space root spans
`[0, buffer length)` and the virtual-space root spans `[0, m)` where `m`
is the maximum `bytes_end` of its children (the `SHF_ALLOC` regions),
which it therefore bounds; but the file-space root need not contain
every region — a section may extend past the buffer end, as the
counterexample shows. -/
theorem C7_theorem (name data : List Nat) (f : ExecutableFile)
    (h : load_from_bytes name data = .ok f) :
    f.file_root.bytes_start = 0 ∧
    f.file_root.bytes_end = List.length data ∧
    f.ram_root.bytes_start = 0 ∧
    (∃ c ∈ f.ram_root.children, c.bytes_end = f.ram_root.bytes_end) ∧
    (∀ c ∈ f.ram_root.children, c.bytes_end ≤ f.ram_root.bytes_end) := by
  obtain ⟨h1, h2, h3, h4, h5, -, -, -, -, -⟩ := load_ok_shape h
  exact ⟨h1, h2, h3, h4, h5⟩

/-- C7, witness: the theorem instantiated on the concrete successful
load of `exGood`. -/
theorem C7_witness :
    fGood.file_root.bytes_start = 0 ∧
    fGood.file_root.bytes_end = List.length exGood ∧
    fGood.ram_root.bytes_start = 0 := by
  have h := C7_theorem nm0 exGood fGood (by rfl)
  exact ⟨h.1, h.2.1, h.2.2.1⟩

/-! ## Claim C8 -/

/-- C8, counterexample.  On `exDup` two sections share `sh_offset =
100`: the sorted sibling list of the file-space root has `[100,200)` at
position 2 and `[100,150)` at position 3 — adjacent siblings with equal
starts (not strictly ascending) whose ranges intersect on `[100,150)`
(not pairwise disjoint). -/
theorem C8_counterexample :
    (fileChildRanges (load_from_bytes nm0 exDup))[2]? = some (100, 200) ∧
    (fileChildRanges (load_from_bytes nm0 exDup))[3]? = some (100, 150) ∧
    ¬(100 < 100) ∧ 100 < 150 ∧ 100 < 200 := by decide

/-- C8, amended.  In both trees the root's children are sorted
non-decreasingly (not strictly) by `bytes_start`, and every root child
is a leaf (so deeper levels are trivial); neither pairwise disjointness
nor strict ascent of sibling starts is guaranteed. -/
theorem C8_theorem (name data : List Nat) (f : ExecutableFile)
    (h : load_from_bytes name data = .ok f) :
    List.Sorted byStart f.file_root.children ∧
    List.Sorted byStart f.ram_root.children ∧
    (∀ c ∈ f.file_root.children, c.children = []) ∧
    (∀ c ∈ f.ram_root.children, c.children = []) := by
  obtain ⟨-, -, -, -, -, -, h7, h8, h9, h10⟩ := load_ok_shape h
  exact ⟨h7, h8, h9, h10⟩

/-- C8, witness: the theorem instantiated on the concrete successful
load of `exGood`. -/
theorem C8_witness :
    List.Sorted byStart fGood.file_root.children ∧
    List.Sorted byStart fGood.ram_root.children := by
  have h := C8_theorem nm0 exGood fGood (by rfl)
  exact ⟨h.1, h.2.1⟩

/-! ## Claim C9 -/

/-- C9.  For every buffer shorter than the 4-byte signature or whose
leading 4 bytes differ from `\x7fELF`, `load_from_bytes` returns the
bad-magic error (the `Err(anyhow!("Magic ELF bytes were wrong."))`
return) and no tree is produced. -/
theorem C9_theorem (name data : List Nat)
    (h : List.length data < 4 ∨ data.take 4 ≠ [0x7f, 0x45, 0x4c, 0x46]) :
    load_from_bytes name data = .error .badMagic := by
  unfold load_from_bytes
  rw [if_pos h]

/-- C9, witness: the theorem instantiated on the four-zero-byte buffer
of the spec's malformed-magic scenario. -/
theorem C9_witness : load_from_bytes nm0 [0, 0, 0, 0] = .error .badMagic :=
  C9_theorem nm0 [0, 0, 0, 0] (by decide)

/-! ## Claim C10 -/

/-- C10.  A parse that reaches region extraction with no `SHF_ALLOC`
section panics at `ram_children.iter().map(..).max().unwrap()` (shown on
the concrete `exNoAlloc`), and equivalently every successfully returned
`ExecutableFile` has at least one region in its virtual-space tree
(proved for every input). -/
theorem C10_theorem :
    (∀ name data f, load_from_bytes name data = .ok f →
      f.ram_root.children ≠ []) ∧
    loadErr? (load_from_bytes nm0 exNoAlloc) =
      some (.panicked "ram_children max().unwrap()") := by
  refine ⟨fun name data f h => ?_, by decide⟩
  obtain ⟨-, -, -, -, -, h6, -, -, -, -⟩ := load_ok_shape h
  exact h6

/-- C10, witness: the universally quantified part instantiated on the
concrete successful load of `exGood`. -/
theorem C10_witness : fGood.ram_root.children ≠ [] :=
  C10_theorem.1 nm0 exGood fGood (by rfl)

end ElfViz
